import Mathlib

/-!
Verification of core data-path subsystems of the influxdb_iox ingester and
router, shallowly embedded from the Rust sources.

Sections:
1. InfluxQL `Duration` display and parsing
   (`influxdb_influxql_parser/src/literal.rs`).
2. Sort-key planning and `compact_persisting_batch`
   (`ingester/src/compact.rs`; `compute_sort_key` / `adjust_sort_key_columns`
   live in the `schema` crate which is not part of the sources at hand, so
   they are modelled from the specification).
3. The router HTTP front door (`router/src/server/http.rs`).
4. The partition buffer state machine
   (`ingester/src/data/partition/buffer/state_machine.rs`).

Machine integers are embedded as `Int`/`Nat` with explicit bounds checks
where the Rust code checks them.  All definitions are executable.
-/

/-! ### 1. InfluxQL durations (`literal.rs`) -/

/-- Number of nanoseconds in a microsecond (`NANOS_PER_MICRO`). -/
def NANOS_PER_MICRO : Int := 1000

/-- Number of nanoseconds in a millisecond (`NANOS_PER_MILLI`). -/
def NANOS_PER_MILLI : Int := 1000 * NANOS_PER_MICRO

/-- Number of nanoseconds in a second (`NANOS_PER_SEC`). -/
def NANOS_PER_SEC : Int := 1000 * NANOS_PER_MILLI

/-- Number of nanoseconds in a minute (`NANOS_PER_MIN`). -/
def NANOS_PER_MIN : Int := 60 * NANOS_PER_SEC

/-- Number of nanoseconds in an hour (`NANOS_PER_HOUR`). -/
def NANOS_PER_HOUR : Int := 60 * NANOS_PER_MIN

/-- Number of nanoseconds in a day (`NANOS_PER_DAY`). -/
def NANOS_PER_DAY : Int := 24 * NANOS_PER_HOUR

/-- Number of nanoseconds in a week (`NANOS_PER_WEEK`). -/
def NANOS_PER_WEEK : Int := 7 * NANOS_PER_DAY

/-- The `DIVISORS` table of `literal.rs`: unit multipliers paired with the
unit suffix used by `Display for Duration`, largest first. -/
def DIVISORS : List (Int × List Char) :=
  [(NANOS_PER_WEEK, ['w']),
   (NANOS_PER_DAY, ['d']),
   (NANOS_PER_HOUR, ['h']),
   (NANOS_PER_MIN, ['m']),
   (NANOS_PER_SEC, ['s']),
   (NANOS_PER_MILLI, ['m', 's']),
   (NANOS_PER_MICRO, ['u', 's']),
   (1, ['n', 's'])]

/-- Maximum value of a Rust `i64` (`i64::MAX`). -/
def i64Max : Int := 9223372036854775807

/-- Character for a decimal digit value. -/
def charOfDigit (d : Nat) : Char := Char.ofNat (48 + d)

/-- Fuelled little-endian decimal digit characters of a natural number;
`fuel ≥ n` always suffices since a positive number has at most `n`
digits. -/
def natCharsAux : Nat → Nat → List Char
  | 0, _ => []
  | fuel + 1, n =>
    if n = 0 then [] else charOfDigit (n % 10) :: natCharsAux fuel (n / 10)

/-- Decimal digit characters of a natural number, most significant first.
This is the rendering produced by Rust's `{}` formatting of a positive
integer (for `n = 0` it returns `[]`; the display code only renders
strictly positive quotients, and the literal `"0s"` is emitted separately,
mirroring the source). -/
def natChars (n : Nat) : List Char := (natCharsAux n n).reverse

theorem natCharsAux_eq_digits (fuel n : Nat) (h : n ≤ fuel) :
    natCharsAux fuel n = (Nat.digits 10 n).map charOfDigit := by
  induction fuel generalizing n with
  | zero =>
    interval_cases n
    simp [natCharsAux]
  | succ fuel ih =>
    by_cases hn : n = 0
    · simp [natCharsAux, hn]
    · rw [natCharsAux, if_neg hn, Nat.digits_def' (by norm_num) (Nat.pos_of_ne_zero hn)]
      have hd : n / 10 ≤ fuel := by
        have := Nat.div_lt_self (Nat.pos_of_ne_zero hn) (by norm_num : 1 < 10)
        omega
      rw [ih _ hd]
      simp

theorem natChars_eq (n : Nat) :
    natChars n = ((Nat.digits 10 n).reverse).map charOfDigit := by
  rw [natChars, natCharsAux_eq_digits n n le_rfl, List.map_reverse]

/-- The fragment list produced by the `for (div, unit) in ...` loop of
`impl Display for Duration`: walking the divisor list with running
remainder `i`, a fragment `(units, div, unit)` is emitted whenever
`units = i / div > 0`, and `units * div` is subtracted from `i`. -/
def displayFrags : List (Int × List Char) → Int → List (Int × Int × List Char)
  | [], _ => []
  | (dv, u) :: rest, i =>
    let units := i / dv
    if 0 < units then (units, dv, u) :: displayFrags rest (i - units * dv)
    else displayFrags rest i

/-- Rendering of one fragment: the decimal quotient followed by the unit. -/
def renderFrag (f : Int × Int × List Char) : List Char :=
  natChars f.1.toNat ++ f.2.2

/-- Rendering of a fragment list, in order. -/
def renderFrags (fs : List (Int × Int × List Char)) : List Char :=
  (fs.map renderFrag).flatten

/-- The `Display` implementation for `Duration` (`literal.rs`): zero prints
as `"0s"`; otherwise the divisor table is first filtered to the divisors
strictly smaller than the value (`.filter(|(div, _)| self.0 > *div)`) and
the greedy quotient loop runs over the filtered table. -/
def durationDisplay (d : Int) : List Char :=
  if d = 0 then ['0', 's']
  else renderFrags (displayFrags (DIVISORS.filter (fun p => decide (p.1 < d))) d)

/-- Stated from the specification's words, for comparison with
`durationDisplay`: the greatest-unit-first decomposition of the value over
the full unit table, each unit emitted with its quotient when non-zero,
with zero printing as `"0s"`. -/
def durationGreedySpec (d : Int) : List Char :=
  if d = 0 then ['0', 's']
  else renderFrags (displayFrags DIVISORS d)

/-- Is a character an ASCII decimal digit (`0-9`)?  This is what nom's
`digit1` accepts. -/
def isDigitChar (c : Char) : Bool := 48 ≤ c.toNat && c.toNat ≤ 57

/-- Accumulating loop of the decimal-integer scan: consume leading digit
characters, returning the accumulated value and the unconsumed rest. -/
def parseDigitsAux : Nat → List Char → Nat × List Char
  | acc, [] => (acc, [])
  | acc, c :: cs =>
    if isDigitChar c then parseDigitsAux (acc * 10 + (c.toNat - 48)) cs
    else (acc, c :: cs)

/-- nom's `digit1` followed by decimal conversion: fails when the input
does not start with a digit, otherwise consumes all leading digits. -/
def parseDigits : List Char → Option (Nat × List Char)
  | [] => none
  | c :: cs =>
    if isDigitChar c then some (parseDigitsAux 0 (c :: cs)) else none

/-- The unit-suffix alternation of `single_duration`, in the source's
`alt` order: `ns`, `µs`, `us`, `ms`, `s`, `m`, `h`, `d`, `w`; the first
matching tag wins. Returns the unit's nanosecond multiplier and the rest
of the input. -/
def parseUnit : List Char → Option (Int × List Char)
  | 'n' :: 's' :: rest => some (1, rest)
  | 'µ' :: 's' :: rest => some (NANOS_PER_MICRO, rest)
  | 'u' :: 's' :: rest => some (NANOS_PER_MICRO, rest)
  | 'm' :: 's' :: rest => some (NANOS_PER_MILLI, rest)
  | 's' :: rest => some (NANOS_PER_SEC, rest)
  | 'm' :: rest => some (NANOS_PER_MIN, rest)
  | 'h' :: rest => some (NANOS_PER_HOUR, rest)
  | 'd' :: rest => some (NANOS_PER_DAY, rest)
  | 'w' :: rest => some (NANOS_PER_WEEK, rest)
  | _ => none

/-- The `single_duration` fragment: an integer (which must fit in `i64`,
as `str::parse::<i64>` fails on overflow) followed by a unit; the value is
the integer times the unit's multiplier, in nanoseconds. -/
def parseSingleDuration (l : List Char) : Option (Int × List Char) :=
  match parseDigits l with
  | none => none
  | some (n, rest) =>
    if i64Max < (n : Int) then none
    else
      match parseUnit rest with
      | none => none
      | some (mult, rest2) => some ((n : Int) * mult, rest2)

theorem parseDigitsAux_length (acc : Nat) (l : List Char) :
    (parseDigitsAux acc l).2.length ≤ l.length := by
  induction l generalizing acc with
  | nil => simp [parseDigitsAux]
  | cons c cs ih =>
    simp only [parseDigitsAux]
    split
    · exact le_trans (ih _) (Nat.le_succ _)
    · simp

theorem parseDigits_length {l r : List Char} {n : Nat}
    (h : parseDigits l = some (n, r)) : r.length ≤ l.length := by
  cases l with
  | nil => simp [parseDigits] at h
  | cons c cs =>
    simp only [parseDigits] at h
    split at h
    · have := parseDigitsAux_length 0 (c :: cs)
      cases h' : parseDigitsAux 0 (c :: cs) with
      | mk a b =>
        rw [h'] at h this
        cases h
        simpa using this
    · cases h

theorem parseUnit_length {l r : List Char} {m : Int}
    (h : parseUnit l = some (m, r)) : r.length < l.length := by
  unfold parseUnit at h
  split at h <;> simp_all <;> omega

theorem parseSingleDuration_length {l r : List Char} {v : Int}
    (h : parseSingleDuration l = some (v, r)) : r.length < l.length := by
  unfold parseSingleDuration at h
  split at h
  · cases h
  next n rest hd =>
    split at h
    · cases h
    · split at h
      · cases h
      next m r2 hu =>
        cases h
        exact lt_of_lt_of_le (parseUnit_length hu) (parseDigits_length hd)

/-- The accumulating loop of nom's `fold_many1`, with explicit fuel:
repeatedly apply `single_duration`, summing the fragment values, stopping
(successfully) at the first failure.  Since every successful fragment
consumes at least one character (`parseSingleDuration_length`), fuel equal
to the input length always suffices, so the fuel never runs out on the
recursion path actually taken. -/
def parseDurationGo : Nat → Int → List Char → Int × List Char
  | 0, acc, l => (acc, l)
  | fuel + 1, acc, l =>
    match parseSingleDuration l with
    | none => (acc, l)
    | some (v, r) => parseDurationGo fuel (acc + v) r

/-- The `duration` parser of `literal.rs`: `fold_many1(single_duration)`,
summing fragment values in nanoseconds; it fails when the input does not
start with a valid fragment. Returns the value and the unconsumed rest. -/
def parseDuration (l : List Char) : Option (Int × List Char) :=
  match parseSingleDuration l with
  | none => none
  | some (v, r) => some (parseDurationGo r.length v r)

/-- Either the empty input, or an input that does not begin with a
decimal digit (so a digit scan stops exactly here). -/
def notDigitStart : List Char → Prop
  | [] => True
  | c :: _ => isDigitChar c = false

/-- Either the empty input, or an input that begins with a decimal digit
(the shape of the text following a complete duration fragment inside a
rendered duration). -/
def digitStart : List Char → Prop
  | [] => True
  | c :: _ => isDigitChar c = true

theorem toNat_charOfDigit {d : Nat} (h : d < 10) : (charOfDigit d).toNat = 48 + d := by
  interval_cases d <;> decide

theorem isDigitChar_charOfDigit {d : Nat} (h : d < 10) :
    isDigitChar (charOfDigit d) = true := by
  interval_cases d <;> decide

theorem parseDigitsAux_digits (ds : List Nat) (hds : ∀ d ∈ ds, d < 10)
    (acc : Nat) (rest : List Char) (hrest : notDigitStart rest) :
    parseDigitsAux acc (ds.map charOfDigit ++ rest) =
      (ds.foldl (fun a d => a * 10 + d) acc, rest) := by
  induction ds generalizing acc with
  | nil =>
    cases rest with
    | nil => rfl
    | cons c t =>
      have hc : isDigitChar c = false := hrest
      simp [parseDigitsAux, hc]
  | cons d ds ih =>
    have hd : d < 10 := hds d (by simp)
    have hds' : ∀ e ∈ ds, e < 10 := fun e he => hds e (by simp [he])
    simp only [List.map_cons, List.cons_append, parseDigitsAux,
      isDigitChar_charOfDigit hd, if_true, toNat_charOfDigit hd, List.foldl_cons,
      List.append_eq]
    have h48 : 48 + d - 48 = d := by omega
    rw [h48, ih hds']

theorem foldl_reverse_digits (L : List Nat) (acc : Nat) :
    (L.reverse).foldl (fun a d => a * 10 + d) acc =
      acc * 10 ^ L.length + Nat.ofDigits 10 L := by
  induction L generalizing acc with
  | nil => simp
  | cons d L ih =>
    simp only [List.reverse_cons, List.foldl_append, List.foldl_cons,
      List.foldl_nil, ih, Nat.ofDigits_cons, List.length_cons]
    ring

theorem parseDigits_natChars {n : Nat} (hn : 0 < n) (rest : List Char)
    (hrest : notDigitStart rest) :
    parseDigits (natChars n ++ rest) = some (n, rest) := by
  have hne : (Nat.digits 10 n).reverse ≠ [] := by
    simp [Nat.digits_ne_nil_iff_ne_zero, hn.ne']
  have hlt : ∀ d ∈ (Nat.digits 10 n).reverse, d < 10 := fun d hd =>
    Nat.digits_lt_base (by norm_num) (List.mem_reverse.1 hd)
  obtain ⟨d, ds, hds⟩ := List.exists_cons_of_ne_nil hne
  have hd10 : d < 10 := hlt d (by rw [hds]; simp)
  have hmap : natChars n ++ rest
      = charOfDigit d :: (ds.map charOfDigit ++ rest) := by
    rw [natChars_eq, hds]
    simp
  rw [hmap, parseDigits, if_pos (isDigitChar_charOfDigit hd10)]
  have hback : charOfDigit d :: (ds.map charOfDigit ++ rest)
      = ((d :: ds).map charOfDigit) ++ rest := by simp
  rw [hback, parseDigitsAux_digits (d :: ds) (hds ▸ hlt) 0 rest hrest, ← hds,
    foldl_reverse_digits, Nat.ofDigits_digits]
  simp

theorem parseUnit_render {dv : Int} {u : List Char} (hmem : (dv, u) ∈ DIVISORS)
    (rest : List Char) (hrest : digitStart rest) :
    parseUnit (u ++ rest) = some (dv, rest) := by
  fin_cases hmem
  case _ => rfl
  case _ => rfl
  case _ => rfl
  case _ =>
    cases rest with
    | nil => rfl
    | cons c t =>
      have hc : c ≠ 's' := by
        intro he
        subst he
        simp [digitStart, isDigitChar] at hrest
      unfold parseUnit
      split <;> simp_all
  case _ => rfl
  case _ => rfl
  case _ => rfl
  case _ => rfl

theorem notDigitStart_unit {dv : Int} {u : List Char} (hmem : (dv, u) ∈ DIVISORS)
    (rest : List Char) : notDigitStart (u ++ rest) := by
  fin_cases hmem <;> simp [notDigitStart, isDigitChar]

theorem parseSingleDuration_render {dv : Int} {u : List Char}
    (hmem : (dv, u) ∈ DIVISORS) {c : Int} (hc1 : 1 ≤ c) (hc2 : c ≤ i64Max)
    (rest : List Char) (hrest : digitStart rest) :
    parseSingleDuration (renderFrag (c, dv, u) ++ rest) = some (c * dv, rest) := by
  have hpos : 0 < c.toNat := by omega
  have hcast : ((c.toNat : Int)) = c := Int.toNat_of_nonneg (by omega)
  have hfrag : renderFrag (c, dv, u) ++ rest = natChars c.toNat ++ (u ++ rest) := by
    simp [renderFrag]
  rw [hfrag, parseSingleDuration,
    parseDigits_natChars hpos (u ++ rest) (notDigitStart_unit hmem rest)]
  simp only [hcast, parseUnit_render hmem rest hrest, if_neg (not_lt.2 hc2)]

/-- A fragment list is well-formed when each quotient is a positive `i64`
and each divisor/unit pair comes from the `DIVISORS` table. -/
def fragsOK (fs : List (Int × Int × List Char)) : Prop :=
  ∀ f ∈ fs, 1 ≤ f.1 ∧ f.1 ≤ i64Max ∧ (f.2.1, f.2.2) ∈ DIVISORS

theorem natChars_cons {m : Nat} (hm : 0 < m) :
    ∃ c t, natChars m = c :: t ∧ isDigitChar c = true := by
  have hne : (Nat.digits 10 m).reverse ≠ [] := by
    simp [Nat.digits_ne_nil_iff_ne_zero, hm.ne']
  obtain ⟨d, ds, hds⟩ := List.exists_cons_of_ne_nil hne
  have hd10 : d < 10 :=
    Nat.digits_lt_base (by norm_num) (List.mem_reverse.1 (by rw [hds]; simp))
  exact ⟨charOfDigit d, ds.map charOfDigit, by rw [natChars_eq, hds]; simp,
    isDigitChar_charOfDigit hd10⟩

theorem digitStart_renderFrags (fs : List (Int × Int × List Char))
    (hfs : fragsOK fs) : digitStart (renderFrags fs) := by
  cases fs with
  | nil => trivial
  | cons f fs =>
    obtain ⟨hc1, _, _⟩ := hfs f (by simp)
    obtain ⟨c, t, hct, hdig⟩ := natChars_cons (m := f.1.toNat) (by omega)
    have : renderFrags (f :: fs)
        = c :: (t ++ f.2.2 ++ renderFrags fs) := by
      simp [renderFrags, renderFrag, hct]
    rw [this]
    exact hdig

theorem renderFrags_cons_ne_nil (f : Int × Int × List Char)
    (fs : List (Int × Int × List Char)) (h1 : 1 ≤ f.1) :
    1 ≤ (renderFrags (f :: fs)).length := by
  obtain ⟨c, t, hct, _⟩ := natChars_cons (m := f.1.toNat) (by omega)
  have : renderFrags (f :: fs) = c :: (t ++ f.2.2 ++ renderFrags fs) := by
    simp [renderFrags, renderFrag, hct]
  simp [this]

theorem parseDurationGo_renderFrags (fs : List (Int × Int × List Char))
    (hfs : fragsOK fs) (acc : Int) (fuel : Nat)
    (hfuel : (renderFrags fs).length ≤ fuel) :
    parseDurationGo fuel acc (renderFrags fs)
      = (acc + (fs.map (fun f => f.1 * f.2.1)).sum, []) := by
  induction fs generalizing acc fuel with
  | nil =>
    cases fuel with
    | zero => simp [renderFrags, parseDurationGo]
    | succ fuel =>
      simp [renderFrags, parseDurationGo, parseSingleDuration, parseDigits]
  | cons f fs ih =>
    obtain ⟨hc1, hc2, hmem⟩ := hfs f (by simp)
    have hfs' : fragsOK fs := fun g hg => hfs g (by simp [hg])
    obtain ⟨c, dv, u⟩ := f
    have hsingle := parseSingleDuration_render hmem hc1 hc2 (renderFrags fs)
      (digitStart_renderFrags fs hfs')
    have hlen : 1 ≤ (renderFrags ((c, dv, u) :: fs)).length :=
      renderFrags_cons_ne_nil (c, dv, u) fs hc1
    cases fuel with
    | zero => omega
    | succ fuel =>
      have hcons : renderFrags ((c, dv, u) :: fs)
          = renderFrag (c, dv, u) ++ renderFrags fs := by simp [renderFrags]
      have hrest : (renderFrags fs).length ≤ fuel := by
        have hh := hfuel
        rw [hcons] at hh
        simp only [List.length_append] at hh
        have hf1 : 1 ≤ (renderFrag (c, dv, u)).length := by
          obtain ⟨ch, t, hct, _⟩ := natChars_cons (m := c.toNat) (by omega)
          simp [renderFrag, hct]
        omega
      have hgo : parseDurationGo (fuel + 1) acc (renderFrag (c, dv, u) ++ renderFrags fs)
          = parseDurationGo fuel (acc + c * dv) (renderFrags fs) := by
        simp only [parseDurationGo]
        rw [hsingle]
      rw [hcons, hgo, ih hfs' _ _ hrest]
      simp only [List.map_cons, List.sum_cons]
      rw [add_assoc]

theorem parseDuration_renderFrags (fs : List (Int × Int × List Char))
    (hfs : fragsOK fs) (hne : fs ≠ []) :
    parseDuration (renderFrags fs)
      = some ((fs.map (fun f => f.1 * f.2.1)).sum, []) := by
  cases fs with
  | nil => exact absurd rfl hne
  | cons f fs =>
    obtain ⟨hc1, hc2, hmem⟩ := hfs f (by simp)
    have hfs' : fragsOK fs := fun g hg => hfs g (by simp [hg])
    obtain ⟨c, dv, u⟩ := f
    have hsingle := parseSingleDuration_render hmem hc1 hc2 (renderFrags fs)
      (digitStart_renderFrags fs hfs')
    have hcons : renderFrags ((c, dv, u) :: fs)
        = renderFrag (c, dv, u) ++ renderFrags fs := by simp [renderFrags]
    have hfirst : parseDuration (renderFrag (c, dv, u) ++ renderFrags fs)
        = some (parseDurationGo (renderFrags fs).length (c * dv) (renderFrags fs)) := by
      simp only [parseDuration]
      rw [hsingle]
    rw [hcons, hfirst, parseDurationGo_renderFrags fs hfs' _ _ le_rfl]
    simp only [List.map_cons, List.sum_cons]

theorem displayFrags_sum (L' : List (Int × List Char)) (u : List Char) :
    ∀ i : Int, (∀ p ∈ L', 1 ≤ p.1) → 0 ≤ i →
      ((displayFrags (L' ++ [(1, u)]) i).map (fun f => f.1 * f.2.1)).sum = i := by
  induction L' with
  | nil =>
    intro i _ hi
    simp only [List.nil_append, displayFrags, Int.ediv_one]
    by_cases h : 0 < i
    · simp [h]
    · have hz : i = 0 := le_antisymm (not_lt.1 h) hi
      simp [hz]
  | cons p L' ih =>
    intro i hL hi
    obtain ⟨dv, u'⟩ := p
    have hdv : 1 ≤ dv := hL (dv, u') (by simp)
    have hL' : ∀ q ∈ L', 1 ≤ q.1 := fun q hq => hL q (by simp [hq])
    simp only [List.cons_append, displayFrags, List.append_eq]
    by_cases h : 0 < i / dv
    · rw [if_pos h]
      have hmod : i - i / dv * dv = i % dv := by
        rw [Int.emod_def]
        ring
      have hrem : 0 ≤ i - i / dv * dv := by
        rw [hmod]
        exact Int.emod_nonneg i (by omega)
      simp only [List.map_cons, List.sum_cons]
      rw [ih _ hL' hrem]
      ring
    · rw [if_neg h]
      exact ih _ hL' hi

theorem displayFrags_bounds (L : List (Int × List Char)) :
    ∀ i : Int, (∀ p ∈ L, 1 ≤ p.1) → 0 ≤ i →
      ∀ f ∈ displayFrags L i, 1 ≤ f.1 ∧ f.1 ≤ i ∧ (f.2.1, f.2.2) ∈ L := by
  induction L with
  | nil => intro i _ _ f hf; simp [displayFrags] at hf
  | cons p L ih =>
    intro i hL hi f hf
    obtain ⟨dv, u⟩ := p
    have hdv : 1 ≤ dv := hL (dv, u) (by simp)
    have hL' : ∀ q ∈ L, 1 ≤ q.1 := fun q hq => hL q (by simp [hq])
    simp only [displayFrags] at hf
    by_cases h : 0 < i / dv
    · rw [if_pos h] at hf
      rcases List.mem_cons.1 hf with heq | htail
      · subst heq
        refine ⟨h, Int.ediv_le_self dv hi, by simp⟩
      · have hmod : i - i / dv * dv = i % dv := by
          rw [Int.emod_def]
          ring
        have hrem : 0 ≤ i - i / dv * dv := by
          rw [hmod]
          exact Int.emod_nonneg i (by omega)
        obtain ⟨h1, h2, h3⟩ := ih _ hL' hrem f htail
        have hle : i - i / dv * dv ≤ i := by
          have : 0 ≤ i / dv * dv := mul_nonneg (le_of_lt h) (by omega)
          omega
        exact ⟨h1, le_trans h2 hle, by simp [h3]⟩
    · rw [if_neg h] at hf
      obtain ⟨h1, h2, h3⟩ := ih _ hL' hi f hf
      exact ⟨h1, h2, by simp [h3]⟩

theorem displayFrags_filter (L : List (Int × List Char)) (d : Int) :
    ∀ i : Int, 0 ≤ i → i ≤ d → (∀ p ∈ L, 1 ≤ p.1 ∧ p.1 ≠ d) →
      displayFrags (L.filter (fun p => decide (p.1 < d))) i = displayFrags L i := by
  induction L with
  | nil => intro i _ _ _; rfl
  | cons p L ih =>
    intro i hi hid hall
    obtain ⟨dv, u⟩ := p
    obtain ⟨hdv, hne⟩ := hall (dv, u) (by simp)
    have hall' : ∀ q ∈ L, 1 ≤ q.1 ∧ q.1 ≠ d := fun q hq => hall q (by simp [hq])
    by_cases hlt : dv < d
    · rw [List.filter_cons, if_pos (by simpa using hlt)]
      simp only [displayFrags]
      by_cases hq : 0 < i / dv
      · rw [if_pos hq, if_pos hq]
        have hmod : i - i / dv * dv = i % dv := by
          rw [Int.emod_def]
          ring
        have hrem : 0 ≤ i - i / dv * dv := by
          rw [hmod]
          exact Int.emod_nonneg i (by omega)
        have hle : i - i / dv * dv ≤ d := by
          have : 0 ≤ i / dv * dv := mul_nonneg (le_of_lt hq) (by omega)
          omega
        rw [ih _ hrem hle hall']
      · rw [if_neg hq, if_neg hq]
        exact ih _ hi hid hall'
    · have hgt : d < dv := lt_of_le_of_ne (not_lt.1 hlt) (Ne.symm hne)
      have hq : i / dv = 0 := Int.ediv_eq_zero_of_lt hi (lt_of_le_of_lt hid hgt)
      rw [List.filter_cons, if_neg (by simpa using not_lt.2 (le_of_lt hgt))]
      conv_rhs => rw [displayFrags]
      rw [hq, if_neg (lt_irrefl 0)]
      exact ih _ hi hid hall'

theorem DIVISORS_pos : ∀ p ∈ DIVISORS, 1 ≤ p.1 := by decide

/-- C3 counterexample: the Display implementation filters the divisor
table with a strict comparison (`self.0 > *div`), so `Duration(1)` prints
as the empty string while the greatest-unit-first decomposition of `1` is
`"1ns"`; the claimed equality fails at nanosecond value 1. -/
theorem c3_duration_display_counterexample :
    durationDisplay 1 = [] ∧ durationGreedySpec 1 = ['1', 'n', 's'] ∧
      durationDisplay 1 ≠ durationGreedySpec 1 := by decide

/-- C3 (amended): for every non-negative Duration whose nanosecond value
is not exactly one of the eight unit multipliers, the Display output is
the greatest-unit-first decomposition of the value (each unit emitted
with its quotient when non-zero, largest unit first), and `Duration(0)`
prints as `"0s"` (the value `0` satisfies the hypotheses, and both sides
then render `"0s"`).  When the value equals a unit multiplier exactly,
the strict divisor filter of the source skips that unit and the value is
rendered in smaller units instead (for the value `1`, as the empty
string). -/
theorem c3_duration_display_amended (d : Int) (h0 : 0 ≤ d)
    (hd : ∀ p ∈ DIVISORS, p.1 ≠ d) : durationDisplay d = durationGreedySpec d := by
  by_cases hz : d = 0
  · subst hz
    rfl
  · rw [durationDisplay, durationGreedySpec, if_neg hz, if_neg hz]
    have hall : ∀ p ∈ DIVISORS, 1 ≤ p.1 ∧ p.1 ≠ d := fun p hp =>
      ⟨DIVISORS_pos p hp, hd p hp⟩
    rw [displayFrags_filter DIVISORS d d h0 le_rfl hall]

/-- Witness for C3 (amended), at the value 90·10⁹ ns (= 1m30s). -/
theorem c3_duration_display_witness :
    (∀ p ∈ DIVISORS, p.1 ≠ (90000000000 : Int)) ∧
      durationDisplay 90000000000 = durationGreedySpec 90000000000 :=
  ⟨by decide, c3_duration_display_amended 90000000000 (by decide) (by decide)⟩

/-- Display of the specification's concrete duration scenario,
`Duration(20·W + 6·D + 13·H + 11·M + 10·S + 9·ms + 8·us + 500·ns)`,
which renders as `"20w6d13h11m10s9ms8us500ns"`. -/
theorem durationDisplay_spec_scenario :
    durationDisplay (20 * NANOS_PER_WEEK + 6 * NANOS_PER_DAY + 13 * NANOS_PER_HOUR
        + 11 * NANOS_PER_MIN + 10 * NANOS_PER_SEC + 9 * NANOS_PER_MILLI
        + 8 * NANOS_PER_MICRO + 500)
      = ['2', '0', 'w', '6', 'd', '1', '3', 'h', '1', '1', 'm', '1', '0', 's',
         '9', 'm', 's', '8', 'u', 's', '5', '0', '0', 'n', 's']
      ∧ durationDisplay 0 = ['0', 's'] := by decide

/-- C4 counterexample: `Duration(1)` displays as the empty string (the
strict divisor filter leaves no divisor for the value 1), and parsing the
empty string with the `duration` parser fails (`fold_many1` requires at
least one fragment), so the round-trip claim fails at the non-negative
value 1. -/
theorem c4_duration_roundtrip_counterexample :
    durationDisplay 1 = [] ∧ parseDuration (durationDisplay 1) = none := by decide

/-- C4 (amended): for every non-negative `i64` nanosecond value other
than 1, parsing the Display output of the duration with the `duration`
parser succeeds, consumes the entire rendering, and yields the original
value.  (For the value 1 the rendering is empty and parsing fails; every
other non-negative value round-trips.) -/
theorem c4_duration_roundtrip_amended (d : Int) (h0 : 0 ≤ d) (hmax : d ≤ i64Max)
    (h1 : d ≠ 1) : parseDuration (durationDisplay d) = some (d, []) := by
  by_cases hz : d = 0
  · subst hz
    decide
  · have h2 : 2 ≤ d := by omega
    rw [durationDisplay, if_neg hz]
    have hDIV : DIVISORS
        = [(NANOS_PER_WEEK, ['w']), (NANOS_PER_DAY, ['d']), (NANOS_PER_HOUR, ['h']),
           (NANOS_PER_MIN, ['m']), (NANOS_PER_SEC, ['s']), (NANOS_PER_MILLI, ['m', 's']),
           (NANOS_PER_MICRO, ['u', 's'])] ++ [(1, ['n', 's'])] := rfl
    have h1d : (1 : Int) < d := by omega
    have hone : List.filter (fun p => decide (p.1 < d)) [((1 : Int), ['n', 's'])]
        = [((1 : Int), ['n', 's'])] := by
      simp [List.filter_cons, h1d]
    have hfilter : DIVISORS.filter (fun p => decide (p.1 < d))
        = (List.filter (fun p => decide (p.1 < d))
            [(NANOS_PER_WEEK, ['w']), (NANOS_PER_DAY, ['d']), (NANOS_PER_HOUR, ['h']),
             (NANOS_PER_MIN, ['m']), (NANOS_PER_SEC, ['s']), (NANOS_PER_MILLI, ['m', 's']),
             (NANOS_PER_MICRO, ['u', 's'])]) ++ [((1 : Int), ['n', 's'])] := by
      conv_lhs => rw [hDIV]
      rw [List.filter_append, hone]
    have hfrontpos : ∀ p ∈ List.filter (fun p => decide (p.1 < d))
        [(NANOS_PER_WEEK, ['w']), (NANOS_PER_DAY, ['d']), (NANOS_PER_HOUR, ['h']),
         (NANOS_PER_MIN, ['m']), (NANOS_PER_SEC, ['s']), (NANOS_PER_MILLI, ['m', 's']),
         (NANOS_PER_MICRO, ['u', 's'])], 1 ≤ p.1 := by
      intro p hp
      refine DIVISORS_pos p ?_
      rw [hDIV]
      exact List.mem_append_left _ (List.mem_of_mem_filter hp)
    have hsum := displayFrags_sum
      (List.filter (fun p => decide (p.1 < d))
        [(NANOS_PER_WEEK, ['w']), (NANOS_PER_DAY, ['d']), (NANOS_PER_HOUR, ['h']),
         (NANOS_PER_MIN, ['m']), (NANOS_PER_SEC, ['s']), (NANOS_PER_MILLI, ['m', 's']),
         (NANOS_PER_MICRO, ['u', 's'])])
      ['n', 's'] d hfrontpos h0
    rw [← hfilter] at hsum
    have hfilterpos : ∀ p ∈ DIVISORS.filter (fun p => decide (p.1 < d)), 1 ≤ p.1 :=
      fun p hp => DIVISORS_pos p (List.mem_of_mem_filter hp)
    have hbounds := displayFrags_bounds (DIVISORS.filter (fun p => decide (p.1 < d)))
      d hfilterpos h0
    have hfragsOK : fragsOK (displayFrags (DIVISORS.filter (fun p => decide (p.1 < d))) d) := by
      intro f hf
      obtain ⟨hf1, hf2, hf3⟩ := hbounds f hf
      exact ⟨hf1, le_trans hf2 hmax, List.mem_of_mem_filter hf3⟩
    have hne : displayFrags (DIVISORS.filter (fun p => decide (p.1 < d))) d ≠ [] := by
      intro hnil
      rw [hnil] at hsum
      simp at hsum
      omega
    rw [parseDuration_renderFrags _ hfragsOK hne, hsum]

/-- Witness for C4 (amended), at the value 2 ns (which renders as
`"2ns"`). -/
theorem c4_duration_roundtrip_witness :
    (0 : Int) ≤ 2 ∧ (2 : Int) ≤ i64Max ∧ (2 : Int) ≠ 1 ∧
      parseDuration (durationDisplay 2) = some (2, []) :=
  ⟨by decide, by decide, by decide,
    c4_duration_roundtrip_amended 2 (by decide) (by decide) (by decide)⟩

/-! ### 2. Sort keys and `compact_persisting_batch` (`ingester/src/compact.rs`) -/

/-- Name of the reserved timestamp column. -/
def TIME_COLUMN : String := "time"

/-- Insertion of a batch of new columns into a sort key immediately
before its `time` column (at the end when the key has no `time`). -/
def insert_before_time (cols new_cols : List String) : List String :=
  cols.takeWhile (fun c => c ≠ TIME_COLUMN) ++ new_cols
    ++ cols.dropWhile (fun c => c ≠ TIME_COLUMN)

/-- Modelled from the spec: `adjust_sort_key_columns` of the `schema`
crate, which is not among the sources at hand (`compact.rs` only calls
it).  Per the specification: walk the existing key in order keeping
every column present in `present_pk`; the new columns are
`present_pk \ existing` in `present_pk` order; insert them immediately
before the `time` column to obtain the data sort key; the catalog update
is `some` of the existing key extended the same way exactly when there
are new columns (columns of the existing key absent from the data are
retained in the catalog - no narrowing), else `none`. -/
def adjust_sort_key_columns (existing present_pk : List String) :
    List String × Option (List String) :=
  let kept := existing.filter (fun c => present_pk.contains c)
  let new_cols := present_pk.filter (fun c => ¬ existing.contains c)
  (insert_before_time kept new_cols,
   if new_cols.isEmpty then none
   else some (insert_before_time existing new_cols))

/-- Lexicographic comparison of column names by character code (the
deterministic tie-break of the sort-key computation). -/
def lexLe : List Char → List Char → Bool
  | [], _ => true
  | _ :: _, [] => false
  | a :: as, b :: bs =>
    if a.toNat < b.toNat then true
    else if b.toNat < a.toNat then false
    else lexLe as bs

/-- Lexicographic comparison of column names. -/
def strLe (a b : String) : Bool := lexLe a.data b.data

/-- Ordered insertion for the cardinality sort: ascending by estimated
cardinality, ties broken by column name. -/
def insertByCard (card : String → Nat) (c : String) : List String → List String
  | [] => [c]
  | x :: xs =>
    if card c < card x || (card c == card x && strLe c x) then c :: x :: xs
    else x :: insertByCard card c xs

/-- Insertion sort by ascending cardinality with lexicographic
tie-break. -/
def sortByCard (card : String → Nat) : List String → List String
  | [] => []
  | x :: xs => insertByCard card x (sortByCard card xs)

/-- Modelled from the spec: `compute_sort_key` of the `schema` crate,
which is not among the sources at hand (`compact.rs` only calls it).
Per the specification: the non-time primary-key columns ordered by
ascending approximate distinct-value count (ties broken by name for
determinism), with `time` appended last.  The distinct-value estimate
over the supplied record batches is abstracted as the function
`card`. -/
def compute_sort_key (pk : List String) (card : String → Nat) : List String :=
  sortByCard card (pk.filter (fun c => c ≠ TIME_COLUMN)) ++ [TIME_COLUMN]

/-- Failure of `compact_persisting_batch`.  The
`assert!(!batch.data.data.is_empty())` of the source panics on empty
data; the panic is modelled as an error outcome (either way no
successful `CompactedStream` is returned). -/
inductive CompactError
  | emptyData
deriving DecidableEq

/-- The sort-key metadata of the `CompactedStream` returned by
`compact_persisting_batch`.  The record-batch stream itself is produced
by the opaque executor collaborator and carries no sort-key information,
so it is not part of the model. -/
structure CompactedStream where
  data_sort_key : List String
  catalog_sort_key_update : Option (List String)
deriving DecidableEq

/-- The `compact_persisting_batch` function of `compact.rs`, restricted
to its sort-key logic: assert the queryable data non-empty, then match
the catalog sort key - `Some(sk)` (empty or not) goes through
`adjust_sort_key_columns(&sk, &batch.data.schema().primary_key())`,
while `None` computes the sort key from cardinality and returns it as
both the data sort key and the catalog update.  `batch_data` stands for
`batch.data.data`, `pk` for `batch.data.schema().primary_key()`, and
`card` for the cardinality estimate over the record batches. -/
def compact_persisting_batch (sort_key : Option (List String))
    (batch_data : List Nat) (pk : List String) (card : String → Nat) :
    Except CompactError CompactedStream :=
  if batch_data.isEmpty then .error .emptyData
  else
    match sort_key with
    | some sk =>
      let r := adjust_sort_key_columns sk pk
      .ok ⟨r.1, r.2⟩
    | none =>
      let sk := compute_sort_key pk card
      .ok ⟨sk, some sk⟩

instance {ε α : Type} [DecidableEq ε] [DecidableEq α] : DecidableEq (Except ε α) :=
  fun x y =>
    match x, y with
    | .error e, .error f =>
      if h : e = f then isTrue (by rw [h]) else isFalse (fun hh => by cases hh; exact h rfl)
    | .ok a, .ok b =>
      if h : a = b then isTrue (by rw [h]) else isFalse (fun hh => by cases hh; exact h rfl)
    | .error _, .ok _ => isFalse (fun hh => by cases hh)
    | .ok _, .error _ => isFalse (fun hh => by cases hh)

/-- Primary key used in the C1 counterexample. -/
def pkExample : List String := ["tag1", "tag2", "time"]

/-- Cardinality estimate used in the C1 counterexample: `tag2` has lower
cardinality than `tag1`, so the computed sort key orders `tag2` first. -/
def cardExample : String → Nat := fun c => if c = "tag2" then 1 else 3

/-- C1 counterexample: with a `Some` but empty catalog sort key, the
source's `match` still takes the `Some` branch and applies
`adjust_sort_key_columns` (yielding the primary key in primary-key
order), not `compute_sort_key` (which orders by ascending cardinality):
for a batch whose primary key is `[tag1, tag2, time]` with `tag2` of
lower cardinality, the computed key is `[tag2, tag1, time]` but the
returned data sort key is `[tag1, tag2, time]`, refuting the claimed
behaviour for the empty-sort-key case. -/
theorem c1_sort_key_dispatch_counterexample :
    compute_sort_key pkExample cardExample = ["tag2", "tag1", "time"] ∧
      compact_persisting_batch (some []) [0] pkExample cardExample
        = .ok ⟨["tag1", "tag2", "time"], some ["tag1", "tag2", "time"]⟩ := by
  decide

/-- C1 (amended): for every call of `compact_persisting_batch` on
non-empty data, if the catalog sort key is `None` the data sort key is
`compute_sort_key` over the batch and the same computed key is the
catalog update; if the catalog sort key is `Some` (whether empty or
non-empty), the data sort key and catalog update are the two components
of `adjust_sort_key_columns(existing, primary_key)`. -/
theorem c1_sort_key_dispatch_amended (batch_data : List Nat) (pk : List String)
    (card : String → Nat) (sk : List String) (hne : batch_data ≠ []) :
    compact_persisting_batch none batch_data pk card
      = .ok ⟨compute_sort_key pk card, some (compute_sort_key pk card)⟩ ∧
    compact_persisting_batch (some sk) batch_data pk card
      = .ok ⟨(adjust_sort_key_columns sk pk).1, (adjust_sort_key_columns sk pk).2⟩ := by
  have h : batch_data.isEmpty = false := by
    cases batch_data with
    | nil => exact absurd rfl hne
    | cons a l => rfl
  constructor <;> simp [compact_persisting_batch, h]

/-- Witness for C1 (amended), at a one-batch input with primary key
`[tag1, tag2, time]` and an existing catalog key `[tag3, time]`. -/
theorem c1_sort_key_dispatch_witness :
    ([0] : List Nat) ≠ [] ∧
      (compact_persisting_batch none [0] pkExample cardExample
        = .ok ⟨compute_sort_key pkExample cardExample,
               some (compute_sort_key pkExample cardExample)⟩ ∧
       compact_persisting_batch (some ["tag3", "time"]) [0] pkExample cardExample
        = .ok ⟨(adjust_sort_key_columns ["tag3", "time"] pkExample).1,
               (adjust_sort_key_columns ["tag3", "time"] pkExample).2⟩) :=
  ⟨by decide,
   c1_sort_key_dispatch_amended [0] pkExample cardExample ["tag3", "time"] (by decide)⟩

/-- C5: `adjust_sort_key_columns` (as used by `compact_persisting_batch`)
returns as data sort key the existing columns occurring in the primary
key, in existing order, with the primary-key columns absent from the
existing key inserted immediately before the `time` column; the catalog
update is `some` exactly when at least one new column was appended.  In
particular, the two concrete scenarios of the repository's tests: an
existing key `[tag3, time]` with primary key `[tag1, tag3, time]` yields
`([tag3, tag1, time], Some [tag3, tag1, time])`, and an existing key
`[tag3, tag1, tag4, time]` with the same primary key yields
`([tag3, tag1, time], None)`. -/
theorem c5_adjust_sort_key_columns (existing pk : List String) :
    (adjust_sort_key_columns existing pk).1
      = insert_before_time (existing.filter (fun c => pk.contains c))
          (pk.filter (fun c => ¬ existing.contains c)) ∧
    ((adjust_sort_key_columns existing pk).2.isSome
      ↔ pk.filter (fun c => ¬ existing.contains c) ≠ []) ∧
    compact_persisting_batch (some ["tag3", "time"]) [0]
        ["tag1", "tag3", "time"] (fun _ => 0)
      = .ok ⟨["tag3", "tag1", "time"], some ["tag3", "tag1", "time"]⟩ ∧
    compact_persisting_batch (some ["tag3", "tag1", "tag4", "time"]) [0]
        ["tag1", "tag3", "time"] (fun _ => 0)
      = .ok ⟨["tag3", "tag1", "time"], none⟩ := by
  refine ⟨rfl, ?_, by decide, by decide⟩
  simp only [adjust_sort_key_columns]
  by_cases h : (pk.filter (fun c => ¬ existing.contains c)).isEmpty
  · simp [h, List.isEmpty_iff.1 h]
  · have hne : pk.filter (fun c => ¬ existing.contains c) ≠ [] := by
      intro hnil
      rw [hnil] at h
      exact h rfl
    simp [h, hne]

/-- C6: for every persisting batch whose queryable data contains no
record batches, `compact_persisting_batch` fails (the source's
`assert!(!batch.data.data.is_empty())` fires before any compaction) and
never returns a successful `CompactedStream`. -/
theorem c6_compact_empty_data (sort_key : Option (List String))
    (pk : List String) (card : String → Nat) :
    compact_persisting_batch sort_key [] pk card = .error .emptyData := rfl

/-! ### 3. Router HTTP front door (`router/src/server/http.rs`) -/

/-- Schema-validation error kinds nested in `DmlError::Schema`. -/
inductive SchemaErr
  | namespaceLookup
  | serviceLimit
  | conflict
  | unexpectedCatalog
deriving DecidableEq

/-- The `DmlError` kinds returned by the downstream DML handler. -/
inductive DmlError
  | databaseNotFound
  | schema (e : SchemaErr)
  | internal
  | writeBuffer
  | namespaceCreation
  | partitionBatchWrite
deriving DecidableEq

/-- Line-protocol conversion failures (`mutable_batch_lp::Error`),
reduced to the cases the handler distinguishes: the empty-payload marker
and the remaining errors (of which the model carries the
timestamp-scaling overflow). -/
inductive LpError
  | emptyPayload
  | timestampOverflow
deriving DecidableEq

/-- Org/bucket decoding failures (`OrgBucketError`). -/
inductive OrgBucketError
  | notSpecified
  | decodeFail
  | mappingFail
deriving DecidableEq

/-- The router's error enumeration (`Error` in `http.rs`). -/
inductive RouterError
  | noHandler
  | invalidOrgBucket (e : OrgBucketError)
  | nonUtf8Body
  | nonUtf8ContentHeader
  | invalidContentEncoding (v : String)
  | clientHangup
  | requestSizeExceeded (max : Nat)
  | invalidGzip
  | parseLineProtocol (e : LpError)
  | parseDelete
  | parseHttpDelete
  | dmlHandler (e : DmlError)
  | requestLimit
deriving DecidableEq

/-- The `From<&DmlError> for StatusCode` mapping of `http.rs`. -/
def dmlStatusCode : DmlError → Nat
  | .databaseNotFound => 404
  | .schema .namespaceLookup => 500
  | .schema .serviceLimit => 400
  | .schema .conflict => 400
  | .schema .unexpectedCatalog => 500
  | .internal => 500
  | .writeBuffer => 500
  | .namespaceCreation => 500
  | .partitionBatchWrite => 500

/-- The `Error::as_status_code` mapping of `http.rs`, with HTTP status
codes as naturals. -/
def as_status_code : RouterError → Nat
  | .noHandler => 404
  | .invalidOrgBucket _ => 400
  | .clientHangup => 400
  | .invalidGzip => 400
  | .nonUtf8ContentHeader => 400
  | .nonUtf8Body => 400
  | .parseLineProtocol _ => 400
  | .parseDelete => 400
  | .parseHttpDelete => 400
  | .requestSizeExceeded _ => 413
  | .invalidContentEncoding _ => 415
  | .dmlHandler e => dmlStatusCode e
  | .requestLimit => 503

/-- The chunk-accumulation loop of `read_body`: each transport chunk is
`none` for a hyper error (mapped to `ClientHangup`) or `some bytes`; the
accumulated length is capped at `max_request_bytes` before appending. -/
def accumulate_body (max : Nat) :
    List (Option (List Nat)) → List Nat → Except RouterError (List Nat)
  | [], body => .ok body
  | none :: _, _ => .error .clientHangup
  | some chunk :: rest, body =>
    if max < body.length + chunk.length then .error (.requestSizeExceeded max)
    else accumulate_body max rest (body ++ chunk)

/-- The `read_body` routine of `http.rs`.  `encoding` is the
`Content-Encoding` header (already UTF-8 decoded).  flate2 is an
external collaborator: gzip decompression of the accumulated body is
modelled by `decoded`, the decompressed content of the (well-formed)
stream, of which the `take(max_request_bytes + 1)`-guarded
`read_to_end` consumes at most `max + 1` bytes; if more than `max`
bytes came out, the body is rejected as too large.  Returns the result
and the number of decompressed bytes read from the gzip stream. -/
def read_body (max : Nat) (encoding : Option String)
    (chunks : List (Option (List Nat))) (decoded : List Nat) :
    Except RouterError (List Nat) × Nat :=
  match (match encoding with
         | none => Except.ok false
         | some "gzip" => Except.ok true
         | some v => Except.error (RouterError.invalidContentEncoding v)) with
  | .error e => (.error e, 0)
  | .ok ungzip =>
    match accumulate_body max chunks [] with
    | .error e => (.error e, 0)
    | .ok body =>
      if !ungzip then (.ok body, 0)
      else
        let decoded_data := decoded.take (max + 1)
        if max < decoded_data.length then
          (.error (.requestSizeExceeded max), decoded_data.length)
        else (.ok decoded_data, decoded_data.length)

theorem accumulate_body_outcome (max : Nat) (chunks : List (Option (List Nat)))
    (hok : ∀ c ∈ chunks, c ≠ none) (body : List Nat) :
    (∃ b, accumulate_body max chunks body = .ok b) ∨
      accumulate_body max chunks body = .error (.requestSizeExceeded max) := by
  induction chunks generalizing body with
  | nil => exact .inl ⟨body, rfl⟩
  | cons c rest ih =>
    cases c with
    | none => exact absurd rfl (hok none (by simp))
    | some chunk =>
      have hok' : ∀ c ∈ rest, c ≠ none := fun c hc => hok c (by simp [hc])
      simp only [accumulate_body]
      by_cases h : max < body.length + chunk.length
      · rw [if_pos h]
        exact .inr rfl
      · rw [if_neg h]
        exact ih hok' (body ++ chunk)

/-- C2: for every request carrying `Content-Encoding: gzip` whose
(well-formed) decompressed content exceeds `max_request_bytes` and whose
transport delivers all chunks, `read_body` returns the
`RequestSizeExceeded` error and reads at most `max_request_bytes + 1`
decompressed bytes from the gzip stream (either the compressed body
already exceeds the cap and no decompressed byte is read, or the
`take`-guarded decoder stops after `max + 1` bytes). -/
theorem c2_gzip_bomb_defense (max : Nat) (chunks : List (Option (List Nat)))
    (decoded : List Nat) (hok : ∀ c ∈ chunks, c ≠ none)
    (hbig : max < decoded.length) :
    (read_body max (some "gzip") chunks decoded).1
      = .error (.requestSizeExceeded max) ∧
    (read_body max (some "gzip") chunks decoded).2 ≤ max + 1 := by
  have htake : (decoded.take (max + 1)).length = max + 1 := by
    rw [List.length_take]
    omega
  rcases accumulate_body_outcome max chunks hok [] with ⟨b, hb⟩ | hb <;>
    simp [read_body, hb, htake]

/-- Witness for C2, with `max_request_bytes = 2`, a single 2-byte
compressed chunk, and 3 bytes of decompressed content. -/
theorem c2_gzip_bomb_defense_witness :
    (∀ c ∈ [some [1, 2]], c ≠ none) ∧ 2 < ([9, 9, 9] : List Nat).length ∧
      ((read_body 2 (some "gzip") [some [1, 2]] [9, 9, 9]).1
          = .error (.requestSizeExceeded 2) ∧
        (read_body 2 (some "gzip") [some [1, 2]] [9, 9, 9]).2 ≤ 2 + 1) :=
  ⟨by decide, by decide,
    c2_gzip_bomb_defense 2 [some [1, 2]] [9, 9, 9] (by decide) (by decide)⟩

/-- Timestamp precision of the write query string (`Precision`). -/
inductive Precision
  | seconds
  | milliseconds
  | microseconds
  | nanoseconds
deriving DecidableEq

/-- The multiplier to convert to nanosecond timestamps
(`Precision::timestamp_base`). -/
def timestamp_base : Precision → Int
  | .seconds => 1000000000
  | .milliseconds => 1000000
  | .microseconds => 1000
  | .nanoseconds => 1

/-- Rust's `i64::checked_mul`: the product when it fits in an `i64`,
`none` on overflow. -/
def checked_mul_i64 (a b : Int) : Option Int :=
  let r := a * b
  if r < -(i64Max + 1) || i64Max < r then none else some r

/-- Does a parsed line carry a provided timestamp whose scaling to
nanoseconds overflows an `i64`? -/
def line_overflows (base : Int) (p : String × Option Int) : Bool :=
  match p.2 with
  | none => false
  | some t => (checked_mul_i64 t base).isNone

/-- Scaling pass of the line-protocol conversion: each line's provided
timestamp is `checked_mul`-scaled by the precision base (overflow fails
the conversion); points lacking a timestamp get the default time. -/
def scale_lines (base default_time : Int) :
    List (String × Option Int) → Except LpError (List (String × Int))
  | [] => .ok []
  | (tbl, ts) :: rest =>
    match (match ts with
           | none => Except.ok default_time
           | some n =>
             match checked_mul_i64 n base with
             | none => Except.error LpError.timestampOverflow
             | some r => Except.ok r) with
    | .error e => .error e
    | .ok v =>
      match scale_lines base default_time rest with
      | .error e => .error e
      | .ok out => .ok ((tbl, v) :: out)

/-- Modelled from the spec: the `LinesConverter` of the
`mutable_batch_lp` crate (not among the sources at hand), restricted to
what the handler's claims depend on.  A payload parsing to zero lines
yields the `EmptyPayload` error (which the handler turns into a silent
default summary); otherwise the timestamps are scaled as in
`scale_lines` and the conversion returns the scaled lines with the line
count as statistics. -/
def lines_converter (base default_time : Int)
    (lines : List (String × Option Int)) :
    Except LpError (List (String × Int) × Nat) :=
  if lines.isEmpty then .error .emptyPayload
  else
    match scale_lines base default_time lines with
    | .error e => .error e
    | .ok out => .ok (out, out.length)

/-- The org/bucket/precision information decoded from the query string
(`WriteInfo`). -/
structure WriteInfo where
  org : String
  bucket : String
  precision : Precision

/-- An opaque write summary; `defaultWriteSummary` models
`WriteSummary::default()`. -/
structure WriteSummary where
  token : Nat
deriving DecidableEq

/-- The empty (default) write summary. -/
def defaultWriteSummary : WriteSummary := ⟨0⟩

/-- A call observed at the DML-handler boundary. -/
inductive DmlCall
  | write (ns : String) (batches : List (String × Int))
  | delete (ns : String)
deriving DecidableEq

/-- The `write_handler` of `http.rs`.  The external stages are passed as
their outcomes: `info` is the query-string decode (`WriteInfo::try_from`),
`namespace_res` the `org_and_bucket_to_database` mapping (whose failure
the handler wraps in `OrgBucketError::MappingFail`), `body_res` the
`read_body` outcome, `utf8_ok` whether the body is valid UTF-8, and
`lines` the lines the body text parses to, fed to the line converter
with the precision's timestamp base.  `dml_write` is the downstream DML
handler.  Returns the handler result together with the list of DML
calls made. -/
def write_handler (info : Except OrgBucketError WriteInfo)
    (namespace_res : Except Unit String)
    (body_res : Except RouterError (List Nat)) (utf8_ok : Bool)
    (lines : List (String × Option Int)) (default_time : Int)
    (dml_write : String → List (String × Int) → Except DmlError WriteSummary) :
    Except RouterError WriteSummary × List DmlCall :=
  match info with
  | .error e => (.error (.invalidOrgBucket e), [])
  | .ok wi =>
    match namespace_res with
    | .error _ => (.error (.invalidOrgBucket .mappingFail), [])
    | .ok ns =>
      match body_res with
      | .error e => (.error e, [])
      | .ok _body =>
        if !utf8_ok then (.error .nonUtf8Body, [])
        else
          match lines_converter (timestamp_base wi.precision) default_time lines with
          | .error .emptyPayload => (.ok defaultWriteSummary, [])
          | .error e => (.error (.parseLineProtocol e), [])
          | .ok (batches, _stats) =>
            match dml_write ns batches with
            | .error e => (.error (.dmlHandler e), [.write ns batches])
            | .ok summary => (.ok summary, [.write ns batches])

/-- C7: for every write request whose body parses to zero line-protocol
lines (and which reaches the parse stage: valid org/bucket, namespace,
body and UTF-8), the handler returns the default write summary
successfully and the downstream DML handler is never called. -/
theorem c7_empty_payload_write (wi : WriteInfo) (ns : String) (body : List Nat)
    (default_time : Int)
    (dml_write : String → List (String × Int) → Except DmlError WriteSummary) :
    write_handler (.ok wi) (.ok ns) (.ok body) true [] default_time dml_write
      = (.ok defaultWriteSummary, []) := rfl

theorem scale_lines_overflow (base default_time : Int)
    (lines : List (String × Option Int))
    (hover : lines.any (line_overflows base) = true) :
    scale_lines base default_time lines = .error .timestampOverflow := by
  induction lines with
  | nil => simp at hover
  | cons p rest ih =>
    obtain ⟨tbl, ts⟩ := p
    rw [List.any_cons] at hover
    by_cases hhd : line_overflows base (tbl, ts) = true
    · cases ts with
      | none => simp [line_overflows] at hhd
      | some t =>
        have hmul : checked_mul_i64 t base = none := by
          simpa [line_overflows, Option.isNone_iff_eq_none] using hhd
        simp [scale_lines, hmul]
    · have htl : rest.any (line_overflows base) = true := by
        rcases Bool.or_eq_true_iff.1 hover with h | h
        · exact absurd h hhd
        · exact h
      cases ts with
      | none => simp [scale_lines, ih htl]
      | some t =>
        cases hmul : checked_mul_i64 t base with
        | none => simp [scale_lines, hmul]
        | some r => simp [scale_lines, hmul, ih htl]

/-- C8: the precision bases are `10^9`, `10^6`, `10^3` and `1` for
`s`, `ms`, `us` and `ns` respectively; a provided timestamp of
`1647622847` at precision `s` scales to `1647622847000000000` ns; and
whenever some line's provided timestamp overflows the `i64`
`checked_mul` scaling, the write handler fails with the
`ParseLineProtocol` error. -/
theorem c8_precision_scaling (wi : WriteInfo) (ns : String) (body : List Nat)
    (default_time : Int)
    (dml_write : String → List (String × Int) → Except DmlError WriteSummary)
    (lines : List (String × Option Int))
    (hover : lines.any (line_overflows (timestamp_base wi.precision)) = true) :
    timestamp_base .seconds = 1000000000 ∧
    timestamp_base .milliseconds = 1000000 ∧
    timestamp_base .microseconds = 1000 ∧
    timestamp_base .nanoseconds = 1 ∧
    lines_converter (timestamp_base .seconds) 0
        [("platanos", some 1647622847)]
      = .ok ([("platanos", 1647622847000000000)], 1) ∧
    (write_handler (.ok wi) (.ok ns) (.ok body) true lines default_time dml_write).1
      = .error (.parseLineProtocol .timestampOverflow) := by
  refine ⟨rfl, rfl, rfl, rfl, by decide, ?_⟩
  have hne : lines.isEmpty = false := by
    cases lines with
    | nil => simp at hover
    | cons a l => rfl
  have hconv : lines_converter (timestamp_base wi.precision) default_time lines
      = .error .timestampOverflow := by
    rw [lines_converter, hne,
      scale_lines_overflow (timestamp_base wi.precision) default_time lines hover]
    rfl
  simp [write_handler, hconv]

/-- Witness for C8, with precision `s` and a single line carrying the
timestamp `1647622847000000000`, whose scaling by `10^9` overflows (the
repository's `precision_overflow` test). -/
theorem c8_precision_scaling_witness :
    ([("platanos", some 1647622847000000000)] : List (String × Option Int)).any
        (line_overflows (timestamp_base (WriteInfo.mk "bananas" "test" .seconds).precision))
      = true ∧
    (write_handler (.ok (WriteInfo.mk "bananas" "test" .seconds)) (.ok "bananas_test")
        (.ok []) true [("platanos", some 1647622847000000000)] 0
        (fun _ _ => .ok defaultWriteSummary)).1
      = .error (.parseLineProtocol .timestampOverflow) :=
  ⟨by decide,
   (c8_precision_scaling (WriteInfo.mk "bananas" "test" .seconds) "bananas_test" [] 0
      (fun _ _ => .ok defaultWriteSummary)
      [("platanos", some 1647622847000000000)] (by decide)).2.2.2.2.2⟩

/-- The outcome of routing one request: the response (`204` on success,
an error otherwise), the value of the `http_request_limit_rejected`
counter after the call, whether the request body was read (a handler
ran), and the DML calls made. -/
structure RouteOutcome where
  response : Except RouterError Nat
  request_limit_rejected : Nat
  body_read : Bool
  dml_calls : List DmlCall
deriving DecidableEq

/-- The `route` entry point of `http.rs`: try to acquire an admission
permit - with none available (`try_acquire` returns `NoPermits`), the
rejection counter is incremented and `RequestLimit` is returned before
the body is read or any handler dispatched; with a permit held, dispatch
on `(method, path)` to the write or delete handler (whose outcome and
DML calls are passed in, the handler reading the body), map any other
pair to `NoHandler`, and map handler success to HTTP 204. -/
def route (permits rejected : Nat) (method path : String)
    (write_res delete_res : Except RouterError WriteSummary × List DmlCall) :
    RouteOutcome :=
  if permits = 0 then
    { response := .error .requestLimit, request_limit_rejected := rejected + 1,
      body_read := false, dml_calls := [] }
  else
    match (if method = "POST" && path = "/api/v2/write" then some write_res
           else if method = "POST" && path = "/api/v2/delete" then some delete_res
           else none) with
    | none =>
      { response := .error .noHandler, request_limit_rejected := rejected,
        body_read := false, dml_calls := [] }
    | some (res, calls) =>
      { response := (match res with | .error e => .error e | .ok _ => .ok 204),
        request_limit_rejected := rejected, body_read := true, dml_calls := calls }

/-- C9: with every admission permit held (none available), `route`
returns the `RequestLimit` error - mapped to HTTP 503 by
`as_status_code` - and increments the `http_request_limit_rejected`
counter by one, without reading the request body or dispatching to any
handler. -/
theorem c9_request_limit (rejected : Nat) (method path : String)
    (write_res delete_res : Except RouterError WriteSummary × List DmlCall) :
    route 0 rejected method path write_res delete_res
      = { response := .error .requestLimit, request_limit_rejected := rejected + 1,
          body_read := false, dml_calls := [] } ∧
    as_status_code .requestLimit = 503 :=
  ⟨rfl, rfl⟩

/-! ### 4. Partition buffer state machine (`state_machine.rs`) -/

/-- An inclusive `[min, max]` range of observed sequence numbers, or
empty. -/
structure SequenceNumberRange where
  range : Option (Int × Int)
deriving DecidableEq

/-- Modelled from the spec: `SequenceNumberRange::observe` (defined in
`ingester/src/data.rs`, which is not among the sources at hand): widen
the inclusive `[min, max]` range to cover the observed number. -/
def SequenceNumberRange.observe (r : SequenceNumberRange) (n : Int) :
    SequenceNumberRange :=
  match r.range with
  | none => ⟨some (n, n)⟩
  | some (lo, hi) => ⟨some (min lo n, max hi n)⟩

/-- A `BufferState` (`state_machine.rs`): the inner state-machine state
paired with the observed sequence-number range.  `σ` abstracts the
state payload (`Buffering`, `Snapshot`, `Persisting`). -/
structure BufferState (σ : Type) where
  state : σ
  sequence_range : SequenceNumberRange

/-- `BufferState::write` (`state_machine.rs`): delegate the append to
the inner writeable state (`self.state.write(batch)?`) and only after it
succeeds call `self.sequence_range.observe(n)`; on failure the `?`
operator returns early and the sequence range is untouched.  The inner
mutable-batch append (`mutable_batch` crate) is abstracted as
`state_write` with error type `ε`.  Returns the Rust `Result` paired
with the buffer as left after the `&mut self` call. -/
def BufferState.write {σ ε β : Type} (state_write : σ → β → Except ε σ)
    (bs : BufferState σ) (batch : β) (n : Int) :
    Except ε Unit × BufferState σ :=
  match state_write bs.state batch with
  | .error e => (.error e, bs)
  | .ok s2 =>
    (.ok (), { state := s2, sequence_range := bs.sequence_range.observe n })

/-- C10: when the inner mutable-batch append fails, `BufferState::write`
returns that error and leaves the buffer - in particular its
`sequence_range` - unchanged: `observe(n)` runs only after a successful
append, so a failed write never widens the observed range. -/
theorem c10_failed_write_preserves_range {σ ε β : Type}
    (state_write : σ → β → Except ε σ) (bs : BufferState σ) (batch : β)
    (n : Int) (e : ε) (hfail : state_write bs.state batch = .error e) :
    (BufferState.write state_write bs batch n).1 = .error e ∧
      (BufferState.write state_write bs batch n).2 = bs ∧
      (BufferState.write state_write bs batch n).2.sequence_range
        = bs.sequence_range := by
  simp [BufferState.write, hfail]

/-- Witness for C10: a concrete buffer with an observed range `[1, 2]`
and an inner append that always fails. -/
theorem c10_failed_write_preserves_range_witness :
    ((fun (_ : Nat) (_ : Nat) => (Except.error () : Except Unit Nat)) 0 7
        = .error ()) ∧
      ((BufferState.write (fun _ _ => Except.error ())
          (BufferState.mk 0 ⟨some (1, 2)⟩) 7 5).1 = .error () ∧
        (BufferState.write (fun _ _ => Except.error ())
          (BufferState.mk 0 ⟨some (1, 2)⟩) 7 5).2 = BufferState.mk 0 ⟨some (1, 2)⟩ ∧
        (BufferState.write (fun _ _ => Except.error ())
          (BufferState.mk 0 ⟨some (1, 2)⟩) 7 5).2.sequence_range
          = (BufferState.mk (σ := Nat) 0 ⟨some (1, 2)⟩).sequence_range) :=
  ⟨rfl,
   c10_failed_write_preserves_range (fun _ _ => Except.error ())
     (BufferState.mk 0 ⟨some (1, 2)⟩) 7 5 () rfl⟩
